import Mathlib

/-!
Shallow embedding of the episode-acquisition pipeline of the
nerdland-discord-podcast-player repository.

The repository contains two variants of the scraper:
* `src/episodes-manager.js` (`scrapeEpisodes`), the module used by the
  `scripts/` entry points, and
* a standalone scraper script (the unnamed module exporting
  `scrapeAllStreams`), an older variant that additionally has a
  fallback-client-id probe in `extractClientId` and a labeled phase in
  `extractShowNotesUrl`.

Definitions below are translated from those sources.  Network calls
(`axios.get`) are modelled by oracle functions carried in an environment
structure; JavaScript `null`/`undefined` are modelled with `Option` and
explicit `Val.nul` / `Val.undef` values; thrown exceptions are modelled
with `Except`.  All definitions are structural recursions (fuel by input
length where the JS uses index jumps), so they evaluate by `decide`/`rfl`.
-/

/-! ## Character classes (JS regex classes restricted to the ASCII inputs
the pipeline handles; `\s` is modelled as space, tab, CR, LF). -/

def isWSC (c : Char) : Bool :=
  c == ' ' || c == '\t' || c == '\n' || c == '\r'

def isWordC (c : Char) : Bool :=
  c.isAlphanum || c == '_'

def lowerEq (c d : Char) : Bool :=
  c.toLower == d.toLower

/-! ## JS objects and the episode store

A JS object is modelled as an association list with first-match lookup;
consing a pair shadows older bindings, so `setField` models property
assignment and `new ++ old` models the spread merge of
`upsertEpisode`, where keys of the incoming object win. -/

structure Chapter where
  start : String
  title : String
deriving DecidableEq, Repr

inductive Val where
  | str : String → Val
  | num : Int → Val
  | nul : Val
  | undef : Val
  | chapters : List Chapter → Val
deriving DecidableEq, Repr

abbrev Record := List (String × Val)

def getField : Record → String → Option Val
  | [], _ => none
  | (k, v) :: rest, key => if k = key then some v else getField rest key

/-- `Array.prototype.findIndex`, with `none` for `-1`. -/
def findIndex (p : Record → Bool) : List Record → Option Nat
  | [] => none
  | r :: rest => if p r then some 0 else (findIndex p rest).map (· + 1)

/-- `episodes[i] = r` on a JS array (index known to be in bounds). -/
def setAt : List Record → Nat → Record → List Record
  | [], _, _ => []
  | _ :: rest, 0, r => r :: rest
  | x :: rest, n + 1, r => x :: setAt rest n r

/-- `upsertEpisode` from episodes-manager.js (identical in the standalone
scraper): look up the episode by `id`, set `updated_date` on the incoming
object, additionally set `created_date` when the id is new, then either
spread-merge over the stored record or append.  Returns the new store
together with the (mutated) incoming object, which is what the caller
pushes onto its result list. -/
def upsertEpisode (now : String) (episodes : List Record) (episodeData : Record) :
    List Record × Record :=
  let ed1 : Record := ("updated_date", Val.str now) :: episodeData
  match findIndex (fun e => decide (getField e "id" = getField episodeData "id")) episodes with
  | some i =>
      let old := (episodes.get? i).getD []
      (setAt episodes i (ed1 ++ old), ed1)
  | none =>
      let ed2 : Record := ("created_date", Val.str now) :: ed1
      (episodes ++ [ed2], ed2)

/-! ### Store lemmas -/

theorem getField_append_of_some {l₁ : Record} {k : String} {v : Val}
    (h : getField l₁ k = some v) (l₂ : Record) :
    getField (l₁ ++ l₂) k = some v := by
  induction l₁ with
  | nil => simp [getField] at h
  | cons p rest ih =>
      simp only [getField, List.cons_append] at h ⊢
      split at h
      · simp_all [getField]
      · simp_all [getField]

theorem getField_append_of_none {l₁ : Record} {k : String}
    (h : getField l₁ k = none) (l₂ : Record) :
    getField (l₁ ++ l₂) k = getField l₂ k := by
  induction l₁ with
  | nil => simp
  | cons p rest ih =>
      simp only [getField, List.cons_append] at h ⊢
      split at h
      · simp_all
      · simp_all [getField]

theorem setAt_get?_eq {l : List Record} {i : Nat} {old : Record}
    (h : l.get? i = some old) (r : Record) :
    (setAt l i r).get? i = some r := by
  induction l generalizing i with
  | nil => simp at h
  | cons x rest ih =>
      cases i with
      | zero => simp [setAt]
      | succ n => simpa [setAt] using ih (by simpa using h)

theorem setAt_get?_ne {l : List Record} {i j : Nat} (h : j ≠ i) (r : Record) :
    (setAt l i r).get? j = l.get? j := by
  induction l generalizing i j with
  | nil => simp [setAt]
  | cons x rest ih =>
      cases i with
      | zero =>
          cases j with
          | zero => exact absurd rfl h
          | succ m => simp [setAt]
      | succ n =>
          cases j with
          | zero => simp [setAt]
          | succ m => simpa [setAt] using ih (fun hc => h (by simp [hc]))

theorem setAt_length (l : List Record) (i : Nat) (r : Record) :
    (setAt l i r).length = l.length := by
  induction l generalizing i with
  | nil => simp [setAt]
  | cons x rest ih =>
      cases i with
      | zero => simp [setAt]
      | succ n => simp [setAt, ih]

/-! ## Description cleaning

`description.replace(/<[^>]*>/g, " ").replace(/\s+/g, " ").trim()` -/

/-- Consume `[^>]*>`: drop characters up to and including the next `>`.
`none` when no `>` follows (the regex then does not match). -/
def dropTag : List Char → Option (List Char)
  | [] => none
  | c :: rest => if c = '>' then some rest else dropTag rest

/-- `replace(/<[^>]*>/g, " ")`, with fuel (one step consumes at least one
character, so `length` fuel always suffices). -/
def stripTagsF : Nat → List Char → List Char
  | 0, l => l
  | _ + 1, [] => []
  | fuel + 1, c :: rest =>
      if c = '<' then
        match dropTag rest with
        | some rest2 => ' ' :: stripTagsF fuel rest2
        | none => '<' :: stripTagsF fuel rest
      else c :: stripTagsF fuel rest

def stripTags (l : List Char) : List Char := stripTagsF l.length l

/-- `replace(/\s+/g, " ")`. -/
def collapseWS : List Char → List Char
  | [] => []
  | [c] => if isWSC c then [' '] else [c]
  | c :: d :: rest =>
      if isWSC c && isWSC d then collapseWS (d :: rest)
      else (if isWSC c then ' ' else c) :: collapseWS (d :: rest)

/-- `String.prototype.trim`. -/
def trimChars (l : List Char) : List Char :=
  ((l.dropWhile isWSC).reverse.dropWhile isWSC).reverse

def cleanDescription (s : String) : List Char :=
  trimChars (collapseWS (stripTags s.data))

/-! ## Chapter extraction (episodes-manager.js)

`/\((\d{2}):(\d{2}):(\d{2})\)\s*([^\n]+)/g` over the raw description. -/

/-- `\s*([^\n]+)` after the closing parenthesis: greedy whitespace, then a
non-empty run up to the next newline; when the greedy run leaves nothing
for `[^\n]+`, the engine backtracks into `\s*`, handing its trailing
non-newline characters to the capture.  Returns the captured title and the
number of characters consumed. -/
def titleAfter (rest : List Char) : Option (List Char × Nat) :=
  let w := rest.takeWhile isWSC
  let q := rest.drop w.length
  let raw := q.takeWhile (fun c => !(c == '\n'))
  if raw.isEmpty then
    let tb := (w.reverse.takeWhile (fun c => !(c == '\n'))).reverse
    if tb.isEmpty then none else some (tb, w.length)
  else some (raw, w.length + raw.length)

def matchChapterBody : List Char → Option (Chapter × Nat)
  | h1 :: h2 :: c1 :: m1 :: m2 :: c2 :: s1 :: s2 :: cp :: rest =>
      if h1.isDigit && h2.isDigit && c1 == ':' && m1.isDigit && m2.isDigit &&
         c2 == ':' && s1.isDigit && s2.isDigit && cp == ')' then
        match titleAfter rest with
        | some (raw, consumed) =>
            some (⟨String.mk [h1, h2, ':', m1, m2, ':', s1, s2],
                   String.mk (trimChars raw)⟩, 10 + consumed)
        | none => none
      else none
  | _ => none

/-- One attempt of the chapter regex at the current position; the `Nat` is
the total length of the match. -/
def matchChapterAt : List Char → Option (Chapter × Nat)
  | c :: rest => if c = '(' then matchChapterBody rest else none
  | [] => none

/-- `matchAll` scan: emit a chapter per match, resume after the match,
else advance one position.  Fuel: every step strictly shrinks the list. -/
def chapterScanF : Nat → List Char → List Chapter
  | 0, _ => []
  | _ + 1, [] => []
  | fuel + 1, c :: rest =>
      match matchChapterAt (c :: rest) with
      | some (ch, n) => ch :: chapterScanF fuel (rest.drop (n - 1))
      | none => chapterScanF fuel rest

/-- `extractChapters(description)`: the falsy / non-string guard returns
`[]`; the argument is the raw (HTML-laden) description. -/
def extractChapters (d : Option String) : List Chapter :=
  match d with
  | none => []
  | some s => if s = "" then [] else chapterScanF s.data.length s.data

theorem matchChapterAt_ne_paren {c : Char} {rest : List Char} (h : ¬c = '(') :
    matchChapterAt (c :: rest) = none := by
  simp [matchChapterAt, h]

theorem chapterScanF_no_paren (fuel : Nat) :
    ∀ l : List Char, '(' ∉ l → chapterScanF fuel l = [] := by
  induction fuel with
  | zero => intro l _; cases l <;> rfl
  | succ n ih =>
      intro l hl
      cases l with
      | nil => rfl
      | cons c rest =>
          have hc : ¬c = '(' := fun h => hl (by simp [h])
          have hrest : '(' ∉ rest := fun h => hl (List.mem_cons_of_mem _ h)
          simp [chapterScanF, matchChapterAt_ne_paren hc, ih rest hrest]

/-! ## Show-notes URL extraction

Both variants share the bare-URL phase (patterns U1/U2 below); the
standalone scraper runs a labeled phase (patterns P1/P2) first.  The JS
regexes are modelled as executable scanners with the engine's
leftmost-position, greedy-with-backtracking semantics spelled out per
pattern. -/

def takeCount (p : Char → Bool) (l : List Char) : Nat := (l.takeWhile p).length

/-- Candidate choices in backtracking order: `n, n-1, …, 0`. -/
def rangeDesc (n : Nat) : List Nat := (List.range (n + 1)).reverse

def firstSome {α β : Type} (f : α → Option β) : List α → Option β
  | [] => none
  | x :: xs =>
      match f x with
      | some b => some b
      | none => firstSome f xs

/-- Case-insensitive literal match, returning the remainder. -/
def dropPrefixCI : List Char → List Char → Option (List Char)
  | [], l => some l
  | _ :: _, [] => none
  | p :: ps, c :: cs => if lowerEq p c then dropPrefixCI ps cs else none

/-- Case-sensitive literal match, returning the remainder. -/
def dropPrefixExact : List Char → List Char → Option (List Char)
  | [], l => some l
  | _ :: _, [] => none
  | p :: ps, c :: cs => if p == c then dropPrefixExact ps cs else none

def startsWithChars (p l : List Char) : Bool := (dropPrefixExact p l).isSome

/-! ### Pattern U1: `/https?:\/\/[a-zA-Z0-9.-]+\.[a-zA-Z]{2,}[^\s\n<>"]*\b/gi` -/

def isHostC (c : Char) : Bool := c.isAlphanum || c == '.' || c == '-'

def isTailC (c : Char) : Bool :=
  !(isWSC c) && !(c == '<') && !(c == '>') && !(c == '"')

def wordAtB : Option Char → Bool
  | some c => isWordC c
  | none => false

/-- Dot positions inside the host run, rightmost first: the greedy
`[a-zA-Z0-9.-]+` backtracks from the longest prefix, so the engine tries
the rightmost `\.` split first (position ≥ 1 keeps the `+` non-empty). -/
def dotIndexDesc (a : List Char) : List Nat :=
  ((List.range a.length).filter (fun i => decide (1 ≤ i) && (a.get? i == some '.'))).reverse

/-- Attempt the `\.[a-zA-Z]{2,}[^\s\n<>"]*\b` suffix of U1 with the dot at
index `i` of the host run `a` (inside `l3`, the text after `://`).
The trailing `\b` backtracks the greedy tail `[^\s\n<>"]*` down to the
longest end that is a word boundary.  Returns the consumed length
within `l3`. -/
def tryDotU1 (a l3 : List Char) (i : Nat) : Option Nat :=
  let letters := takeCount (fun c => c.isAlpha) (a.drop (i + 1))
  if letters < 2 then none
  else
    let base := i + 1 + letters
    let afterL := l3.drop base
    let t := afterL.takeWhile isTailC
    let afterT := afterL.drop t.length
    ((rangeDesc t.length).find? (fun e =>
        let prevWord := if e = 0 then true else wordAtB (t.get? (e - 1))
        let nextWord := if e < t.length then wordAtB (t.get? e) else wordAtB afterT.head?
        prevWord != nextWord)).map (fun e => base + e)

/-- One attempt of U1 at the current position; `some n` is the length of
the match. -/
def matchU1At (l : List Char) : Option Nat :=
  match dropPrefixCI "http".data l with
  | none => none
  | some l1 =>
      let sN := match l1.head? with
        | some c => if c == 's' || c == 'S' then 1 else 0
        | none => 0
      let l2 := l1.drop sN
      match dropPrefixCI "://".data l2 with
      | none => none
      | some l3 =>
          let a := l3.takeWhile isHostC
          match firstSome (tryDotU1 a l3) (dotIndexDesc a) with
          | some m => some (4 + sN + 3 + m)
          | none => none

/-! ### Pattern U2:
`/(?:www\.)?[a-zA-Z0-9-]+\.[a-zA-Z]{2,}(?:\/[\w\-._~:/?#[\]@!$&'()*+,;=%]*)?(?=\s|$)/g` -/

def isPathC (c : Char) : Bool :=
  isWordC c || "-._~:/?#[]@!$&()*+,;=%".data.contains c || c == Char.ofNat 39

def lookaheadWS : List Char → Bool
  | [] => true
  | c :: _ => isWSC c

/-- The mandatory part of U2 after an optional `www.` of length `base`.
The charsets make backtracking degenerate: the label run cannot shrink
(the following literal `.` is outside its charset), shrinking the TLD run
puts a letter after the cut (never `\s`/end), and every path character is
non-whitespace, so the lookahead is decided at the greedy ends only. -/
def matchU2Core (l : List Char) (base : Nat) : Option Nat :=
  let h := takeCount (fun c => c.isAlphanum || c == '-') l
  if h = 0 then none
  else
    match l.drop h with
    | '.' :: afterDot =>
        let letters := takeCount (fun c => c.isAlpha) afterDot
        if letters < 2 then none
        else
          let afterL := afterDot.drop letters
          let consumed := h + 1 + letters
          match afterL.head? with
          | some '/' =>
              let p := afterL.takeWhile isPathC
              if lookaheadWS (afterL.drop p.length) then some (base + consumed + p.length)
              else none
          | _ => if lookaheadWS afterL then some (base + consumed) else none
    | _ => none

def matchU2At (l : List Char) : Option Nat :=
  match dropPrefixExact "www.".data l with
  | some l1 =>
      (match matchU2Core l1 4 with
       | some n => some n
       | none => matchU2Core l 0)
  | none => matchU2Core l 0

/-- `String.prototype.match` on a global pattern, first match: try the
pattern at each position left to right and return the matched text. -/
def scanMatch (f : List Char → Option Nat) : List Char → Option (List Char)
  | [] => (f []).map (fun n => ([] : List Char).take n)
  | c :: rest =>
      match f (c :: rest) with
      | some n => some ((c :: rest).take n)
      | none => scanMatch f rest

/-! ### Candidate post-processing shared by both files -/

def isPunctC (c : Char) : Bool :=
  c == '.' || c == ',' || c == ';' || c == '!' || c == '?'

/-- `url.replace(/[.,;!?]+$/, "")`. -/
def stripTrailingPunct (l : List Char) : List Char :=
  (l.reverse.dropWhile isPunctC).reverse

def afterLastAt (l : List Char) : List Char :=
  (l.reverse.takeWhile (fun c => !(c == '@'))).reverse

def isSchemeC (c : Char) : Bool := c.isAlphanum || c == '+' || c == '-' || c == '.'

/-- `new URL(url).hostname`, simplified to the inputs this pipeline feeds
it: scheme then `://` then authority up to `/?#`; user-info before `@` and
a `:` port are stripped, the host is lowercased.  A missing `:` after a
scheme-shaped prefix is a parse error (`none` models the thrown
TypeError); a scheme without `//` yields the empty hostname.  Port
validation, percent-decoding and IDN mapping are not modelled (no claim
exercises them). -/
def parseHost (url : List Char) : Option (List Char) :=
  match url.head? with
  | some c =>
      if c.isAlpha then
        let s := url.takeWhile isSchemeC
        match url.drop s.length with
        | ':' :: rest =>
            (match rest with
             | '/' :: '/' :: rest2 =>
                 let auth := rest2.takeWhile (fun c => !(c == '/') && !(c == '?') && !(c == '#'))
                 let host := (afterLastAt auth).takeWhile (fun c => !(c == ':'))
                 if host.isEmpty then none else some (host.map Char.toLower)
             | _ => some [])
        | _ => none
      else none
  | none => none

def hostIsValid (host : List Char) : Bool :=
  host.contains '.' && decide (3 < host.length)

/-- Validation applied to a bare-URL phase match: strip trailing
punctuation, require length ≥ 8, prefix `https://` unless the candidate
starts with `http`, parse and check the hostname. -/
def postProcess2 (m : List Char) : Option String :=
  let url1 := stripTrailingPunct m
  if url1.length < 8 then none
  else
    let url2 := if startsWithChars "http".data url1 then url1 else ("https://".data ++ url1)
    match parseHost url2 with
    | some host => if hostIsValid host then some (String.mk url2) else none
    | none => none

/-- Bare-URL phase, second pattern (U2); a failed validation falls off the
end of the loop, returning null. -/
def phase2b (clean : List Char) : Option String :=
  match scanMatch matchU2At clean with
  | some m => postProcess2 m
  | none => none

/-- Bare-URL phase: first U1 and, when it yields nothing valid
(`continue`), U2. -/
def phase2 (clean : List Char) : Option String :=
  match scanMatch matchU1At clean with
  | some m =>
      (match postProcess2 m with
       | some u => some u
       | none => phase2b clean)
  | none => phase2b clean

/-! ### Labeled phase (standalone scraper only)

P1: `/(?:show\s*notes?|shownotes?)[\s:]*([^\s\n]+(?:\s+[^\s\n]+)*?)(?:\s|$)/i`
P2: `/(?:meer\s+info|more\s+info)[\s:]*(?:op[\s:]*)?([^\s\n]+(?:\s+[^\s\n]+)*?)(?:\s|$)/i`

The capture `[^\s\n]+(?:\s+[^\s\n]+)*?` is lazy in its second group, so it
captures the first maximal non-whitespace run after the separator, and
`(?:\s|$)` then always holds.  When nothing non-whitespace follows, the
engine backtracks into `[\s:]*` (and the optional label letters), which
the candidate lists below enumerate in the engine's order. -/

def isSepC (c : Char) : Bool := isWSC c || c == ':'

/-- `notes?` ends in greedy order: with the optional `s` first. -/
def withOptS (l : List Char) : List (List Char) :=
  match l with
  | c :: cs => if c == 's' || c == 'S' then [cs, l] else [l]
  | [] => [l]

/-- Remainders after `(?:show\s*notes?|shownotes?)` at this position, in
backtracking order (`\s*` longest first, `s?` with before without; the
second alternative re-tries the zero-whitespace case). -/
def labelEndsShow (l : List Char) : List (List Char) :=
  match dropPrefixCI "show".data l with
  | none => []
  | some l1 =>
      let maxK := takeCount isWSC l1
      let branch1 := (rangeDesc maxK).flatMap (fun k =>
        match dropPrefixCI "note".data (l1.drop k) with
        | some l2 => withOptS l2
        | none => [])
      let branch2 := match dropPrefixCI "note".data l1 with
        | some l2 => withOptS l2
        | none => []
      branch1 ++ branch2

/-- Non-empty `[^\s\n]+` capture at this position. -/
def nonEmptyCap (l : List Char) : Option (List Char) :=
  let cap := l.takeWhile (fun c => !(isWSC c))
  if cap.isEmpty then none else some cap

/-- `[\s:]*(capture)` with the separator backtracking longest-first. -/
def capAfterLabel (rem : List Char) : Option (List Char) :=
  let w := takeCount isSepC rem
  firstSome (fun w2 => nonEmptyCap (rem.drop w2)) (rangeDesc w)

def matchP1At (l : List Char) : Option (List Char) :=
  firstSome capAfterLabel (labelEndsShow l)

/-- Remainders after `(?:meer\s+info|more\s+info)` (`\s+` needs at least
one whitespace character). -/
def labelEndsInfo (l : List Char) : List (List Char) :=
  let branch := fun (word : List Char) =>
    match dropPrefixCI word l with
    | none => []
    | some l1 =>
        let maxK := takeCount isWSC l1
        ((rangeDesc maxK).filter (fun k => decide (1 ≤ k))).filterMap (fun k =>
          dropPrefixCI "info".data (l1.drop k))
  branch "meer".data ++ branch "more".data

/-- `[\s:]*(?:op[\s:]*)?(capture)`: separator longest-first, then the
optional `op` group greedily (with `op` before without). -/
def capAfterLabel2 (rem : List Char) : Option (List Char) :=
  let w := takeCount isSepC rem
  firstSome (fun w2 =>
    let rem2 := rem.drop w2
    let withOp := match dropPrefixCI "op".data rem2 with
      | some rem3 =>
          let v := takeCount isSepC rem3
          firstSome (fun v2 => nonEmptyCap (rem3.drop v2)) (rangeDesc v)
      | none => none
    match withOp with
    | some cap => some cap
    | none => nonEmptyCap rem2) (rangeDesc w)

def matchP2At (l : List Char) : Option (List Char) :=
  firstSome capAfterLabel2 (labelEndsInfo l)

/-- Leftmost match of a capturing pattern. -/
def scanCapture (f : List Char → Option (List Char)) : List Char → Option (List Char)
  | [] => f []
  | c :: rest =>
      match f (c :: rest) with
      | some cap => some cap
      | none => scanCapture f rest

/-- `url.replace(/\s+(en|and|of|or|\w{1,3})$/, "")`: strip a dangling
short trailing word together with the whitespace before it. -/
def stripDangling (l : List Char) : List Char :=
  let rev := l.reverse
  let t := rev.takeWhile (fun c => !(isWSC c))
  match rev.drop t.length with
  | c :: restRev =>
      if isWSC c && !t.isEmpty then
        let w := t.reverse
        if w == "en".data || w == "and".data || w == "of".data || w == "or".data ||
           (decide (w.length ≤ 3) && w.all isWordC) then
          ((c :: restRev).dropWhile isWSC).reverse
        else l
      else l
  | [] => l

def stopWords : List (List Char) :=
  ["op", "met", "door", "aan", "van", "in", "en", "and", "or", "the", "a", "an"].map
    String.data

/-- `/^(op|met|door|aan|van|in|en|and|or|the|a|an)$/i.test(url)`. -/
def isStopWord (l : List Char) : Bool :=
  stopWords.contains (l.map Char.toLower)

/-- Validation applied to a labeled-phase capture: trim, strip trailing
punctuation and a dangling short word, reject short or stop-word
candidates, prefix the scheme and validate the hostname. -/
def postProcess1 (cap : List Char) : Option String :=
  let url0 := trimChars cap
  let url1 := stripTrailingPunct url0
  let url2 := stripDangling url1
  if url2.length < 8 then none
  else if isStopWord url2 then none
  else
    let url3 := if startsWithChars "http".data url2 then url2 else ("https://".data ++ url2)
    match parseHost url3 with
    | some host => if hostIsValid host then some (String.mk url3) else none
    | none => none

/-- Labeled phase, second pattern (P2). -/
def phase1b (clean : List Char) : Option String :=
  match scanCapture matchP2At clean with
  | some cap => postProcess1 cap
  | none => none

/-- Labeled phase: P1 first; a failing validation `continue`s to P2. -/
def phase1 (clean : List Char) : Option String :=
  match scanCapture matchP1At clean with
  | some cap =>
      (match postProcess1 cap with
       | some u => some u
       | none => phase1b clean)
  | none => phase1b clean

namespace Manager

/-- `extractShowNotesUrl` of episodes-manager.js: falsy / non-string guard,
then only the bare-URL patterns over the cleaned description. -/
def extractShowNotesUrl (d : Option String) : Option String :=
  match d with
  | none => none
  | some s => if s = "" then none else phase2 (cleanDescription s)

end Manager

namespace Scrape

/-- `extractShowNotesUrl` of the standalone scraper: the labeled patterns
run over the cleaned description first; the bare-URL fallback runs only
when no labeled candidate validates. -/
def extractShowNotesUrl (d : Option String) : Option String :=
  match d with
  | none => none
  | some s =>
      if s = "" then none
      else
        match phase1 (cleanDescription s) with
        | some u => some u
        | none => phase2 (cleanDescription s)

end Scrape

/-! ## Duration formatting -/

def pad2 (n : Nat) : String := if n < 10 then "0" ++ toString n else toString n

/-- `formatDuration(milliseconds)`: the guard `if (!milliseconds)` treats
every falsy value as absent, so a missing duration and a duration of 0 ms
both yield "Unknown". -/
def formatDuration : Option Nat → String
  | none => "Unknown"
  | some ms =>
      if ms = 0 then "Unknown"
      else
        let seconds := ms / 1000
        let minutes := seconds / 60
        let hours := minutes / 60
        if hours > 0 then
          toString hours ++ ":" ++ pad2 (minutes % 60) ++ ":" ++ pad2 (seconds % 60)
        else
          toString minutes ++ ":" ++ pad2 (seconds % 60)

/-! ## Tracks, the network environment, and media resolution -/

structure Format where
  protocol : String
deriving DecidableEq, Repr

structure Transcoding where
  format : Option Format
  url : String
deriving DecidableEq, Repr

/-- A raw track record as the API returns it.  `transcodings` models
`media?.transcodings` (a missing `media` behaves like the empty list);
`description` is `none` when the field is absent, null or not a string. -/
structure Track where
  id : Int
  title : String
  description : Option String
  duration : Option Nat
  created_at : String
  permalink_url : String
  streamable : Bool
  stream_url : Option String
  transcodings : List Transcoding
  downloadable : Bool
  download_url : Option String
deriving DecidableEq, Repr

/-- Oracles for the effectful calls of the pipeline.
`fetchUrl u` models `axios.get(u, { params: { client_id } })` followed by
the `.data.url` access: `.error ()` is a thrown request, `.ok none` a
response without a `url` field, `.ok (some v)` a resolved URL.
`getTrackDetails` already folds its internal try/catch to `none`.
`dateMs` models `new Date(s).getTime()`, `now` the ISO timestamp taken
during an upsert. -/
structure Env where
  clientId : String
  now : String
  fetchUrl : String → Except Unit (Option String)
  getTrackDetails : Int → Option Track
  dateMs : String → Int

/-- The `for (const transcoding of track.media.transcodings)` loop of
`getStreamUrl`: only entries whose `format.protocol` is "progressive" are
queried; a per-entry throw or a response without a URL field is swallowed
and the loop continues.  The second component records every URL queried. -/
def resolveTranscodings (env : Env) : List Transcoding → List String →
    Option String × List String
  | [], q => (none, q)
  | tc :: rest, q =>
      match tc.format with
      | some f =>
          if f.protocol = "progressive" then
            match env.fetchUrl tc.url with
            | .ok (some u) => (some u, q ++ [tc.url])
            | .ok none => resolveTranscodings env rest (q ++ [tc.url])
            | .error _ => resolveTranscodings env rest (q ++ [tc.url])
          else resolveTranscodings env rest q
      | none => resolveTranscodings env rest q

/-- `getStreamUrl(track)` with an audit trail of queried URLs.  The whole
body sits in one try/catch that converts any exception to null; only the
per-transcoding requests have an inner catch.  Consequently a throw from
the `track.stream_url` request lands in the outer catch and returns null
at once, while an `.ok` response without a URL field falls through to the
transcodings and then to the downloadable synthesis. -/
def getStreamUrlT (env : Env) (track : Track) : Option String × List String :=
  let step23 : List String → Option String × List String := fun q =>
    match resolveTranscodings env track.transcodings q with
    | (some u, q2) => (some u, q2)
    | (none, q2) =>
        if track.downloadable then
          match track.download_url with
          | some d => (some (d ++ "?client_id=" ++ env.clientId), q2)
          | none => (none, q2)
        else (none, q2)
  match track.stream_url with
  | some s =>
      (match env.fetchUrl s with
       | .error _ => (none, [s])
       | .ok (some u) => (some u, [s])
       | .ok none => step23 [s])
  | none => step23 []

def getStreamUrl (env : Env) (track : Track) : Option String :=
  (getStreamUrlT env track).1

/-! ## Orchestrator (`processTrackData` of episodes-manager.js) -/

/-- The processed-track object literal, in source order.  A missing
description/duration is an `undefined` property, a failed resolution a
`null` one, and `chapters` is explicitly `undefined` when empty. -/
def mkProcessedTrack (t : Track) (streamUrl showNotes : Option String)
    (chapters : List Chapter) : Record :=
  [("id", Val.num t.id), ("title", Val.str t.title),
   ("description", match t.description with | some s => Val.str s | none => Val.undef),
   ("duration", match t.duration with | some n => Val.num n | none => Val.undef),
   ("durationFormatted", Val.str (formatDuration t.duration)),
   ("createdAt", Val.str t.created_at),
   ("permalink", Val.str t.permalink_url),
   ("streamUrl", match streamUrl with | some u => Val.str u | none => Val.nul),
   ("showNotes", match showNotes with | some u => Val.str u | none => Val.nul),
   ("chapters", if chapters.isEmpty then Val.undef else Val.chapters chapters)]

def typeErrorMsg : String := "TypeError: Cannot read properties of null"

/-- The per-item loop of `processTrackData`.  An input entry is
`Option Track` because a collection entry can be null, in which case the
property access `track.id` throws before any of the tolerant sub-calls
run; the loop body has no try/catch, so the exception escapes as
`.error`.  Returns the accumulated result list and the store. -/
def processLoop (env : Env) : List (Option Track) → List Record → List Record →
    Except String (List Record × List Record)
  | [], store, processed => .ok (processed, store)
  | none :: _, _, _ => .error typeErrorMsg
  | some track :: rest, store, processed =>
      let detailedTrack := (env.getTrackDetails track.id).getD track
      if detailedTrack.streamable then
        let streamUrl := getStreamUrl env detailedTrack
        let showNotesUrl := Manager.extractShowNotesUrl detailedTrack.description
        let chapters := extractChapters detailedTrack.description
        let processedTrack := mkProcessedTrack detailedTrack streamUrl showNotesUrl chapters
        let r := upsertEpisode env.now store processedTrack
        processLoop env rest r.1 (processed ++ [r.2])
      else
        processLoop env rest store processed

/-- Comparator key: `new Date(r.createdAt).getTime()` (the loop always
stores a string `createdAt`). -/
def sortKey (env : Env) (r : Record) : Int :=
  match getField r "createdAt" with
  | some (Val.str s) => env.dateMs s
  | _ => 0

/-- `processTrackData(tracks)`: run the loop, then
`sort((a, b) => new Date(b.createdAt) - new Date(a.createdAt))` —
a stable sort by descending creation time (Array#sort is stable per
ES2019; a stable sort under a total comparator has a unique result, here
realised by insertion sort). -/
def processTrackData (env : Env) (store : List Record) (tracks : List (Option Track)) :
    Except String (List Record × List Record) :=
  (processLoop env tracks store []).map
    (fun p => (List.insertionSort (fun a b => sortKey env b ≤ sortKey env a) p.1, p.2))

/-! ## Credential resolution (standalone scraper)

`extractClientId`: scan the harvested script URLs for an embedded token;
when none yields one, probe the two known-historical fallback ids with a
resolve call; throw only after both are exhausted.  The script-URL
harvesting from the profile HTML and the six token regexes are abstracted
into the oracle environment (the claims concern the strategy order, not
the patterns). -/

structure CredEnv where
  fetchScript : String → Option String
  matchClientId : String → Option String
  probe : String → Bool

/-- The script scan: fetch each candidate (a throw is swallowed) and
return the first token any pattern extracts. -/
def scanScripts (env : CredEnv) : List String → Option String
  | [] => none
  | u :: rest =>
      match env.fetchScript u with
      | none => scanScripts env rest
      | some body =>
          match env.matchClientId body with
          | some cid => some cid
          | none => scanScripts env rest

def fallbackClientIds : List String :=
  ["iZIs9mchVcX5lhVkN0b1WACJxt3kz3eh", "c9AadRMEwQKfnCLDJ8GBqvQvjQTdV0dP"]

/-- The fallback loop: accept the first id whose resolve probe does not
throw. -/
def probeFallbacks (env : CredEnv) : List String → Option String
  | [] => none
  | f :: rest => if env.probe f then some f else probeFallbacks env rest

def credUnavailableMsg : String := "Could not extract or find working client ID"

def extractClientId (env : CredEnv) (scriptUrls : List String) : Except String String :=
  match scanScripts env scriptUrls with
  | some cid => .ok cid
  | none =>
      match probeFallbacks env fallbackClientIds with
      | some f => .ok f
      | none => .error credUnavailableMsg

/-! ## Claim theorems -/

/-! ### C10: zero / missing duration formats as "Unknown" -/

def c10Env : Env :=
  { clientId := "CID", now := "NOW", fetchUrl := fun _ => .ok none,
    getTrackDetails := fun _ => none, dateMs := fun _ => 0 }

def c10Track : Track :=
  { id := 10, title := "zero length", description := none, duration := some 0,
    created_at := "2024-01-01", permalink_url := "p", streamable := true,
    stream_url := none, transcodings := [], downloadable := false, download_url := none }

/-- Claim C10: `formatDuration` treats every falsy millisecond value as
absent, so a duration of 0 ms (like a missing one) yields "Unknown"
rather than "0:00", and a zero-length streamable episode is persisted
with `durationFormatted = "Unknown"`. -/
theorem c10_formatDuration_zero_unknown :
    formatDuration (some 0) = "Unknown" ∧
    formatDuration none = "Unknown" ∧
    ("Unknown" : String) ≠ "0:00" ∧
    (processTrackData c10Env [] [some c10Track]).map
        (fun p => p.2.map (fun r => getField r "durationFormatted")) =
      .ok [some (Val.str "Unknown")] :=
  ⟨rfl, rfl, by decide, rfl⟩

/-! ### C9: chapter extraction -/

/-- Claim C9: `extractChapters` matches parenthesized `(HH:MM:SS)`
timestamps each followed by a title up to the next newline, in textual
order with trimmed titles and no range validation; a description without
any parenthesized timestamp (in particular without `(` at all) yields the
empty list. -/
theorem c9_extractChapters_spec :
    extractChapters (some "(00:01:30) Intro\n(00:15:00) Main topic") =
      [⟨"00:01:30", "Intro"⟩, ⟨"00:15:00", "Main topic"⟩] ∧
    extractChapters (some "a description with no timestamps") = [] ∧
    extractChapters (some "(99:99:99) no range validation") =
      [⟨"99:99:99", "no range validation"⟩] ∧
    (∀ s : String, '(' ∉ s.data → extractChapters (some s) = []) := by
  refine ⟨by decide, by decide, by decide, ?_⟩
  intro s hs
  by_cases h0 : s = ""
  · simp [extractChapters, h0]
  · simp [extractChapters, h0, chapterScanF_no_paren _ _ hs]

theorem c9_witness :
    '(' ∉ "plain text".data ∧ extractChapters (some "plain text") = [] :=
  ⟨by decide, c9_extractChapters_spec.2.2.2 "plain text" (by decide)⟩

/-! ### C1: an item-level exception aborts the whole batch -/

def c1Env : Env :=
  { clientId := "CID", now := "NOW", fetchUrl := fun _ => .ok none,
    getTrackDetails := fun _ => none, dateMs := fun _ => 0 }

def c1Track : Track :=
  { id := 1, title := "good", description := none, duration := some 1000,
    created_at := "2024-01-01", permalink_url := "p", streamable := true,
    stream_url := none, transcodings := [], downloadable := false, download_url := none }

/-- Claim C1 (refuted by the code): the loop body of `processTrackData`
has no try/catch, so the TypeError raised by `track.id` on a null
collection entry escapes and aborts the whole batch — the following valid
track, which on its own processes fine, is lost.  The claim (and §4.7 /
§7 of the spec) requires the exception to be caught, the single item
skipped, and processing to continue. -/
theorem c1_item_failure_aborts_batch :
    processTrackData c1Env [] [none, some c1Track] = .error typeErrorMsg ∧
    (processTrackData c1Env [] [some c1Track]).map (fun p => p.1.length) = .ok 1 :=
  ⟨rfl, rfl⟩

/-! ### C2: fallback client-id probe (standalone scraper) -/

theorem probeFallbacks_eq_find? (env : CredEnv) (l : List String) :
    probeFallbacks env l = l.find? env.probe := by
  induction l with
  | nil => rfl
  | cons f rest ih =>
      by_cases hp : env.probe f
      · simp [probeFallbacks, List.find?, hp]
      · simp [probeFallbacks, List.find?, hp, ih]

theorem probeFallbacks_eq_none (env : CredEnv) (l : List String) :
    probeFallbacks env l = none ↔ ∀ f ∈ l, env.probe f = false := by
  induction l with
  | nil => simp [probeFallbacks]
  | cons f rest ih =>
      by_cases hp : env.probe f
      · simp [probeFallbacks, hp]
      · simp [probeFallbacks, hp, ih]

/-- Claim C2: when the script scan yields no token, `extractClientId`
(standalone scraper) accepts exactly the first fallback id whose probe
call succeeds, and reports the credential-unavailable error exactly when
every fallback probe fails as well. -/
theorem c2_extractClientId_fallback_probe (env : CredEnv) (urls : List String)
    (h : scanScripts env urls = none) :
    (∀ c, extractClientId env urls = .ok c ↔
        fallbackClientIds.find? env.probe = some c) ∧
    (extractClientId env urls = .error credUnavailableMsg ↔
        ∀ f ∈ fallbackClientIds, env.probe f = false) := by
  unfold extractClientId
  rw [h]
  cases hp : probeFallbacks env fallbackClientIds with
  | none =>
      have hall := (probeFallbacks_eq_none env fallbackClientIds).mp hp
      have hfind : fallbackClientIds.find? env.probe = none := by
        rw [← probeFallbacks_eq_find?, hp]
      constructor
      · intro c
        simp [hp, hfind]
      · constructor
        · intro _
          exact hall
        · intro _
          rfl
  | some f =>
      have hfind : fallbackClientIds.find? env.probe = some f := by
        rw [← probeFallbacks_eq_find?, hp]
      constructor
      · intro c
        simp [hp, hfind]
      · constructor
        · intro hcontra
          simp at hcontra
        · intro hall
          have h0 := (probeFallbacks_eq_none env fallbackClientIds).mpr hall
          rw [hp] at h0
          cases h0

def c2Env : CredEnv :=
  { fetchScript := fun _ => none, matchClientId := fun _ => none,
    probe := fun s => s == "c9AadRMEwQKfnCLDJ8GBqvQvjQTdV0dP" }

theorem c2_witness :
    extractClientId c2Env ["https://a.sndcdn.com/app.js"] =
      .ok "c9AadRMEwQKfnCLDJ8GBqvQvjQTdV0dP" :=
  ((c2_extractClientId_fallback_probe c2Env ["https://a.sndcdn.com/app.js"] rfl).1
    "c9AadRMEwQKfnCLDJ8GBqvQvjQTdV0dP").mpr (by decide)

/-! ### C6: direct stream reference takes precedence -/

/-- Claim C6: when the track has a direct stream reference and its
authenticated call resolves a URL, `getStreamUrl` returns that URL and
the only URL ever queried is the direct reference — the transcodings are
never touched, whatever they contain. -/
theorem c6_direct_stream_precedence (env : Env) (t : Track) (s u : String)
    (hs : t.stream_url = some s) (hu : env.fetchUrl s = .ok (some u)) :
    getStreamUrlT env t = (some u, [s]) := by
  simp [getStreamUrlT, hs, hu]

def c6Env : Env :=
  { clientId := "CID", now := "NOW",
    fetchUrl := fun sx => if sx = "SREF" then .ok (some "RESOLVED") else .ok none,
    getTrackDetails := fun _ => none, dateMs := fun _ => 0 }

def c6Track : Track :=
  { id := 6, title := "t", description := none, duration := some 1000,
    created_at := "2024-01-01", permalink_url := "p", streamable := true,
    stream_url := some "SREF",
    transcodings := [{ format := some { protocol := "progressive" }, url := "TRURL" }],
    downloadable := true, download_url := some "D" }

theorem c6_witness :
    getStreamUrlT c6Env c6Track = (some "RESOLVED", ["SREF"]) ∧
    c6Track.transcodings ≠ [] :=
  ⟨c6_direct_stream_precedence c6Env c6Track "SREF" "RESOLVED" rfl rfl, by decide⟩

/-! ### C3: failure behavior of media resolution -/

theorem resolveTranscodings_fst_indep (env : Env) (ts : List Transcoding)
    (q q' : List String) :
    (resolveTranscodings env ts q).1 = (resolveTranscodings env ts q').1 := by
  induction ts generalizing q q' with
  | nil => rfl
  | cons tc rest ih =>
      simp only [resolveTranscodings]
      cases tc.format with
      | none => exact ih q q'
      | some f =>
          by_cases hp : f.protocol = "progressive"
          · simp only [hp, if_true, if_pos]
            cases hfetch : env.fetchUrl tc.url with
            | error e => exact ih _ _
            | ok o =>
                cases o with
                | some u => rfl
                | none => exact ih _ _
          · simp only [hp, if_false, if_neg, not_false_iff]
            exact ih q q'

def c3Env : Env :=
  { clientId := "CID", now := "NOW",
    fetchUrl := fun sx =>
      if sx = "S" then .error () else if sx = "T" then .ok (some "U") else .ok none,
    getTrackDetails := fun _ => none, dateMs := fun _ => 0 }

def c3Track : Track :=
  { id := 30, title := "t", description := none, duration := some 1000,
    created_at := "2024-01-01", permalink_url := "p", streamable := true,
    stream_url := some "S",
    transcodings := [{ format := some { protocol := "progressive" }, url := "T" }],
    downloadable := true, download_url := some "D" }

/-- Claim C3 is false as stated: on a track whose direct stream call
throws, `getStreamUrl` returns null without querying the (resolvable)
progressive transcoding and without trying the applicable download-URL
synthesis — the trace contains only the direct reference, yet the same
track without the direct reference resolves via the transcoding. -/
theorem c3_counterexample :
    getStreamUrlT c3Env c3Track = (none, ["S"]) ∧
    getStreamUrl c3Env { c3Track with stream_url := none } = some "U" ∧
    c3Track.downloadable = true ∧ c3Track.download_url = some "D" :=
  ⟨rfl, rfl, rfl, rfl⟩

/-- Claim C3 as amended: no exception propagates (the result is always a
plain value), and the tolerant fallbacks are exactly these: (1) a thrown
direct-stream call is caught by the outer handler and yields null at once
without attempting any later strategy; (2) a direct-stream response
without a URL field falls through to the remaining strategies; (3) inside
the transcodings loop a non-progressive entry, a thrown request or a
response without a URL field is skipped and the loop continues. -/
theorem c3_stream_failure_behavior :
    (∀ (env : Env) (t : Track) (s : String),
      t.stream_url = some s → env.fetchUrl s = .error () →
      getStreamUrlT env t = (none, [s])) ∧
    (∀ (env : Env) (t : Track) (s : String),
      t.stream_url = some s → env.fetchUrl s = .ok none →
      getStreamUrl env t = getStreamUrl env { t with stream_url := none }) ∧
    (∀ (env : Env) (tc : Transcoding) (rest : List Transcoding) (q : List String),
      (tc.format = none ∨ (∃ f, tc.format = some f ∧ f.protocol ≠ "progressive") ∨
        env.fetchUrl tc.url = .error () ∨ env.fetchUrl tc.url = .ok none) →
      (resolveTranscodings env (tc :: rest) q).1 = (resolveTranscodings env rest q).1) := by
  refine ⟨?_, ?_, ?_⟩
  · intro env t s hs hu
    simp [getStreamUrlT, hs, hu]
  · intro env t s hs hu
    have hind := resolveTranscodings_fst_indep env t.transcodings
    simp only [getStreamUrl, getStreamUrlT, hs, hu]
    cases hres : resolveTranscodings env t.transcodings [s] with
    | mk r1 q1 =>
        cases hres2 : resolveTranscodings env t.transcodings [] with
        | mk r2 q2 =>
            have : r1 = r2 := by
              have h1 := hind [s] []
              rw [hres, hres2] at h1
              exact h1
            subst this
            cases r1 with
            | some u => simp
            | none =>
                simp only []
                by_cases hd : t.downloadable <;>
                  cases hdu : t.download_url <;> simp [hd, hdu]
  · intro env tc rest q hdisj
    rcases hdisj with hf | ⟨f, hf, hproto⟩ | herr | hok
    · simp [resolveTranscodings, hf]
    · simp [resolveTranscodings, hf, hproto]
    · simp only [resolveTranscodings, herr]
      cases hf : tc.format with
      | none => rfl
      | some f =>
          by_cases hproto : f.protocol = "progressive"
          · simp only [hproto, if_pos rfl, herr]
            exact resolveTranscodings_fst_indep env rest _ _
          · simp [hproto]
    · simp only [resolveTranscodings, hok]
      cases hf : tc.format with
      | none => rfl
      | some f =>
          by_cases hproto : f.protocol = "progressive"
          · simp only [hproto, if_pos rfl, hok]
            exact resolveTranscodings_fst_indep env rest _ _
          · simp [hproto]

def c3wEnv : Env :=
  { clientId := "W", now := "N", fetchUrl := fun _ => .error (),
    getTrackDetails := fun _ => none, dateMs := fun _ => 0 }

def c3wTrack : Track :=
  { id := 31, title := "w", description := none, duration := none,
    created_at := "2024-01-02", permalink_url := "p", streamable := true,
    stream_url := some "SX",
    transcodings := [{ format := some { protocol := "progressive" }, url := "TX" }],
    downloadable := true, download_url := some "DX" }

theorem c3_witness :
    getStreamUrlT c3wEnv c3wTrack = (none, ["SX"]) :=
  c3_stream_failure_behavior.1 c3wEnv c3wTrack "SX" rfl rfl

/-! ### C5: upsert merge semantics -/

/-- Claim C5: for an existing identity, `upsertEpisode` replaces only the
matched record with the spread-merge of the incoming fields over the
stored ones — every incoming key wins, `updated_date` is set to now,
`created_date` keeps its stored value (the incoming record carries none),
and keys absent from the incoming record keep their old values; for a new
identity both bookkeeping dates are set to now and the record is
appended with the incoming fields otherwise untouched. -/
theorem c5_upsert_merge :
    (∀ (now : String) (store : List Record) (inc : Record) (i : Nat) (old : Record),
      findIndex (fun e => decide (getField e "id" = getField inc "id")) store = some i →
      store.get? i = some old →
      getField inc "created_date" = none →
      (upsertEpisode now store inc).1.length = store.length ∧
      (∀ j, j ≠ i → (upsertEpisode now store inc).1.get? j = store.get? j) ∧
      (∀ m, (upsertEpisode now store inc).1.get? i = some m →
        getField m "updated_date" = some (Val.str now) ∧
        getField m "created_date" = getField old "created_date" ∧
        (∀ k v, k ≠ "updated_date" → getField inc k = some v → getField m k = some v) ∧
        (∀ k, k ≠ "updated_date" → getField inc k = none →
          getField m k = getField old k))) ∧
    (∀ (now : String) (store : List Record) (inc : Record),
      findIndex (fun e => decide (getField e "id" = getField inc "id")) store = none →
      (upsertEpisode now store inc).1 = store ++ [(upsertEpisode now store inc).2] ∧
      getField (upsertEpisode now store inc).2 "created_date" = some (Val.str now) ∧
      getField (upsertEpisode now store inc).2 "updated_date" = some (Val.str now) ∧
      (∀ k, k ≠ "updated_date" → k ≠ "created_date" →
        getField (upsertEpisode now store inc).2 k = getField inc k)) := by
  constructor
  · intro now store inc i old hfind hget hcd
    have hup : (upsertEpisode now store inc).1 =
        setAt store i ((("updated_date", Val.str now) :: inc) ++ old) := by
      simp only [upsertEpisode, hfind, hget, Option.getD_some]
    refine ⟨?_, ?_, ?_⟩
    · rw [hup]
      exact setAt_length store i _
    · intro j hj
      rw [hup]
      exact setAt_get?_ne hj _
    · intro m hm
      rw [hup, setAt_get?_eq hget] at hm
      injection hm with hm
      subst hm
      refine ⟨?_, ?_, ?_, ?_⟩
      · exact getField_append_of_some (by simp [getField]) old
      · exact getField_append_of_none (by simp [getField, hcd]) old
      · intro k v hk hv
        exact getField_append_of_some (by simp [getField, Ne.symm hk, hv]) old
      · intro k hk hv
        exact getField_append_of_none (by simp [getField, Ne.symm hk, hv]) old
  · intro now store inc hfind
    have hup1 : (upsertEpisode now store inc).1 =
        store ++ [("created_date", Val.str now) :: ("updated_date", Val.str now) :: inc] := by
      simp only [upsertEpisode, hfind]
    have hup2 : (upsertEpisode now store inc).2 =
        ("created_date", Val.str now) :: ("updated_date", Val.str now) :: inc := by
      simp only [upsertEpisode, hfind]
    refine ⟨by rw [hup1, hup2], ?_, ?_, ?_⟩
    · rw [hup2]
      simp [getField]
    · rw [hup2]
      simp [getField]
    · intro k hk1 hk2
      rw [hup2]
      simp [getField, Ne.symm hk1, Ne.symm hk2]

def c5Old : Record :=
  [("id", Val.num 7), ("title", Val.str "old title"), ("created_date", Val.str "T0"),
   ("updated_date", Val.str "T0"), ("extra", Val.num 5)]

def c5Inc : Record :=
  [("id", Val.num 7), ("title", Val.str "new title")]

theorem c5_witness :
    (upsertEpisode "T1" [c5Old] c5Inc).1.length = 1 ∧
    getField (((upsertEpisode "T1" [c5Old] c5Inc).1.get? 0).getD [])
      "created_date" = some (Val.str "T0") ∧
    getField (((upsertEpisode "T1" [c5Old] c5Inc).1.get? 0).getD [])
      "title" = some (Val.str "new title") ∧
    getField (((upsertEpisode "T1" [c5Old] c5Inc).1.get? 0).getD [])
      "updated_date" = some (Val.str "T1") ∧
    getField (((upsertEpisode "T1" [c5Old] c5Inc).1.get? 0).getD [])
      "extra" = some (Val.num 5) := by
  have h := (c5_upsert_merge.1 "T1" [c5Old] c5Inc 0 c5Old (by decide) (by decide)
    (by decide)).2.2 (((upsertEpisode "T1" [c5Old] c5Inc).1.get? 0).getD []) (by decide)
  exact ⟨(c5_upsert_merge.1 "T1" [c5Old] c5Inc 0 c5Old (by decide) (by decide)
      (by decide)).1,
    h.2.1.trans (by decide),
    h.2.2.1 "title" (Val.str "new title") (by decide) (by decide),
    h.1,
    h.2.2.2 "extra" (by decide) (by decide) |>.trans (by decide)⟩

/-! ### C7: non-streamable items are skipped entirely -/

theorem processLoop_skip (env : Env) (t : Track) (ys : List (Option Track))
    (h : ((env.getTrackDetails t.id).getD t).streamable = false) :
    ∀ (xs : List (Option Track)) (store processed : List Record),
      processLoop env (xs ++ some t :: ys) store processed =
        processLoop env (xs ++ ys) store processed := by
  intro xs
  induction xs with
  | nil =>
      intro store processed
      simp [processLoop, h]
  | cons x rest ih =>
      intro store processed
      cases x with
      | none => simp [processLoop]
      | some u =>
          simp only [List.cons_append, processLoop]
          by_cases hs : ((env.getTrackDetails u.id).getD u).streamable
          · simp [hs, ih]
          · simp [hs, ih]

/-- Claim C7: an item whose effective record (detail record, or the
summary when detail fetching failed) is not streamable is skipped
entirely — removing it from the input changes nothing: it is never
upserted into the store, never appears in the result and raises no
error, whatever media references it carries. -/
theorem c7_nonstreamable_skipped (env : Env) (store : List Record)
    (xs ys : List (Option Track)) (t : Track)
    (h : ((env.getTrackDetails t.id).getD t).streamable = false) :
    processTrackData env store (xs ++ some t :: ys) =
      processTrackData env store (xs ++ ys) := by
  unfold processTrackData
  rw [processLoop_skip env t ys h xs store []]

def c7Env : Env :=
  { clientId := "CID", now := "NOW", fetchUrl := fun _ => .ok (some "U"),
    getTrackDetails := fun _ => none, dateMs := fun _ => 0 }

def c7Skip : Track :=
  { id := 70, title := "not streamable", description := none, duration := some 1000,
    created_at := "2024-01-01", permalink_url := "p", streamable := false,
    stream_url := some "S", transcodings := [], downloadable := true,
    download_url := some "D" }

def c7Keep : Track :=
  { id := 71, title := "streamable", description := none, duration := some 1000,
    created_at := "2024-01-02", permalink_url := "p", streamable := true,
    stream_url := none, transcodings := [], downloadable := false,
    download_url := none }

theorem c7_witness :
    processTrackData c7Env [] [some c7Keep, some c7Skip] =
      processTrackData c7Env [] [some c7Keep] :=
  c7_nonstreamable_skipped c7Env [] [some c7Keep] [] c7Skip rfl

/-! ### C8: result sorted by creation time, descending -/

/-- Claim C8: whenever `processTrackData` succeeds, its result list is
sorted by the `createdAt` comparator in descending order and is a
permutation of the episodes the loop processed. -/
theorem c8_sorted_descending (env : Env) (store : List Record)
    (tracks : List (Option Track)) (out : List Record × List Record)
    (h : processTrackData env store tracks = .ok out) :
    out.1.Sorted (fun a b => sortKey env b ≤ sortKey env a) ∧
    ∃ pre, processLoop env tracks store [] = .ok pre ∧ out.1.Perm pre.1 := by
  unfold processTrackData at h
  cases hloop : processLoop env tracks store [] with
  | error e =>
      rw [hloop] at h
      cases h
  | ok pre =>
      rw [hloop] at h
      simp only [Except.map] at h
      injection h with h
      subst h
      haveI hT : IsTotal Record (fun a b => sortKey env b ≤ sortKey env a) :=
        ⟨fun a b => le_total (sortKey env b) (sortKey env a)⟩
      haveI hTr : IsTrans Record (fun a b => sortKey env b ≤ sortKey env a) :=
        ⟨fun _ _ _ hab hbc => le_trans hbc hab⟩
      exact ⟨List.sorted_insertionSort _ _, pre, rfl, List.perm_insertionSort _ _⟩

def c8Env : Env :=
  { clientId := "CID", now := "NOW", fetchUrl := fun _ => .ok none,
    getTrackDetails := fun _ => none,
    dateMs := fun s => if s = "T3" then 3 else if s = "T2" then 2 else 1 }

def c8Track (i : Int) (ca : String) : Track :=
  { id := i, title := "t", description := none, duration := none,
    created_at := ca, permalink_url := "p", streamable := true,
    stream_url := none, transcodings := [], downloadable := false, download_url := none }

def c8Tracks : List (Option Track) :=
  [some (c8Track 3 "T3"), some (c8Track 1 "T1"), some (c8Track 2 "T2")]

def c8Out : List Record × List Record :=
  match processTrackData c8Env [] c8Tracks with
  | .ok o => o
  | .error _ => ([], [])

theorem c8_witness :
    c8Out.1.Sorted (fun a b => sortKey c8Env b ≤ sortKey c8Env a) ∧
    c8Out.1.map (fun r => getField r "createdAt") =
      [some (Val.str "T3"), some (Val.str "T2"), some (Val.str "T1")] :=
  ⟨(c8_sorted_descending c8Env [] c8Tracks c8Out rfl).1, by decide⟩

/-! ### C4: labeled show-notes references beat bare URLs -/

/-- Claim C4: the standalone scraper's `extractShowNotesUrl` runs the
labeled phase (show-notes / more-info patterns, including the localized
`meer info` variant) over the cleaned description first and returns its
validating candidate immediately; the bare-URL phase runs only when the
labeled phase produces nothing, so in a description where a bare URL
appears before a later labeled show-notes reference the labeled
reference's URL wins — even though the bare-URL phase alone would have
returned the earlier URL. -/
theorem c4_labeled_before_bare :
    (∀ (s u : String),
      phase1 (cleanDescription s) = some u →
      Scrape.extractShowNotesUrl (some s) = some u) ∧
    (∀ s : String,
      phase1 (cleanDescription s) = none →
      Scrape.extractShowNotesUrl (some s) = phase2 (cleanDescription s)) ∧
    (Scrape.extractShowNotesUrl
        (some "Bare link http://early.example.com here. Show notes: https://labeled.example.com/page") =
        some "https://labeled.example.com/page" ∧
      phase2 (cleanDescription
        "Bare link http://early.example.com here. Show notes: https://labeled.example.com/page") =
        some "http://early.example.com") := by
  refine ⟨?_, ?_, by decide, by decide⟩
  · intro s u hu
    by_cases h0 : s = ""
    · subst h0
      have hnone : phase1 (cleanDescription "") = none := by decide
      rw [hnone] at hu
      cases hu
    · simp [Scrape.extractShowNotesUrl, h0, hu]
  · intro s h1
    by_cases h0 : s = ""
    · subst h0
      simp [Scrape.extractShowNotesUrl]
      decide
    · simp [Scrape.extractShowNotesUrl, h0, h1]

theorem c4_witness :
    Scrape.extractShowNotesUrl (some "Show notes: example.com/page and more text") =
      some "https://example.com/page" :=
  c4_labeled_before_bare.1 "Show notes: example.com/page and more text"
    "https://example.com/page" (by decide)
